import Mathlib

/-!
Verification development for the flight_agent repository.

Shallow embedding conventions:
* Calendar dates are modelled as day numbers (`Nat`): `date.fromisoformat` /
  `strftime` round-trip between ISO strings and dates, equality of ISO date
  strings coincides with equality of day numbers, and `timedelta(days = n)`
  is addition of `n`.
* Python floats are modelled as rationals; string processing is carried out on
  `List Char` (the character data of a `String`).
* Python exceptions are modelled with `Except Unit`; a raised and uncaught
  exception is `.error ()`.
* External collaborators (the remote flight search, the text-extraction call,
  the JSON decoder of the standard library) are oracles passed as arguments:
  a theorem quantifying over the oracle covers every behaviour of the
  collaborator.
* The pandas frames of main.py are modelled as lists of records; sorting by a
  column is modelled with a stable sort on that column.
-/

deriving instance DecidableEq for Except

namespace FlightAgent

/-! ## Configuration (config.py) -/

def MAX_DURATION_HOURS : ℚ := 10

def MAX_RETRIES : Nat := 3

def ORIGIN : String := "BOS"

/-- Modelled from the spec: `TRIP_LENGTHS` is imported by main.py from the
config module, but the config source in the repository does not define it;
the config test suite pins its value to `[3, 4, 5, 6]`.  All combination and
planning functions below are parameterised by the list of trip lengths, and
this constant is used for concrete instances. -/
def TRIP_LENGTHS : List Nat := [3, 4, 5, 6]

/-- config.generate_dates: every day from `start` to `endD`, both inclusive
(empty when `start > endD`). -/
def generate_dates (start endD : Nat) : List Nat :=
  List.range' start (endD + 1 - start)

/-! ## Record normalization (main.py parse helpers) -/

/-- Value of a non-empty digit string (the result of Python `int` on it). -/
def digitsVal (ds : List Char) : Nat :=
  ds.foldl (fun acc c => acc * 10 + (c.toNat - 48)) 0

/-- Leftmost match of the pattern `(\d+)\s*unit` (as in `re.search`): scan for
the first position holding a digit whose maximal digit run, after optional
whitespace, is followed by `unit`; return the value of that digit run. -/
def findNumBefore (unit : List Char) : List Char → Option Nat
  | [] => none
  | c :: rest =>
    if c.isDigit then
      if unit.isPrefixOf (((c :: rest).dropWhile Char.isDigit).dropWhile Char.isWhitespace) then
        some (digitsVal ((c :: rest).takeWhile Char.isDigit))
      else findNumBefore unit rest
    else findNumBefore unit rest

/-- main.parse_duration_hrs: parse a duration string such as "6 hr 25 min" to
decimal hours; either component may be absent (defaulting to 0); empty input
gives `none`. -/
def parse_duration_hrs (s : String) : Option ℚ :=
  if s = "" then none
  else
    let hours := (findNumBefore ['h', 'r'] s.data).getD 0
    let minutes := (findNumBefore ['m', 'i', 'n'] s.data).getD 0
    some ((hours : ℚ) + (minutes : ℚ) / 60)

def isPriceChar (c : Char) : Bool := c.isDigit || c = ','

/-- Leftmost match of the pattern `\$?([\d,]+)` (as in `re.search`), returning
the captured group: the first maximal run of digits/commas, optionally led by
a dollar sign (the dollar sign is consumed only when a digit or comma
follows, matching regex backtracking). -/
def priceGroup : List Char → Option (List Char)
  | [] => none
  | c :: rest =>
    if c = '$' && (match rest with | [] => false | d :: _ => isPriceChar d) then
      some (rest.takeWhile isPriceChar)
    else if isPriceChar c then
      some ((c :: rest).takeWhile isPriceChar)
    else priceGroup rest

/-- main.parse_price: parse a price string such as "$507" to an integer;
empty input and no-match inputs give `.ok none`.  When the matched group
consists solely of commas, Python `int("")` raises ValueError, modelled as
`.error ()`. -/
def parse_price (s : String) : Except Unit (Option Int) :=
  if s = "" then .ok none
  else
    match priceGroup s.data with
    | none => .ok none
    | some g =>
      let ds := g.filter (fun c => c ≠ ',')
      if ds.isEmpty then .error ()
      else .ok (some ((digitsVal ds : Nat) : Int))

/-- Python value that is either an int or a string (the stops field). -/
inductive StopsVal where
  | intVal (n : Int)
  | strVal (s : String)
deriving DecidableEq

/-- Substring containment on character lists (Python `in` on strings). -/
def containsSub : List Char → List Char → Bool
  | hay, pat =>
    if pat.isPrefixOf hay then true
    else
      match hay with
      | [] => false
      | _ :: t => containsSub t pat

def lowerChars (s : String) : List Char := s.data.map Char.toLower

/-- Leftmost match of `(\d+)` (as in `re.search`). -/
def findFirstNum : List Char → Option Nat
  | [] => none
  | c :: rest =>
    if c.isDigit then some (digitsVal ((c :: rest).takeWhile Char.isDigit))
    else findFirstNum rest

/-- main.parse_stops: an int passes through; empty or "Unknown" gives -1;
text containing "nonstop" (case-insensitively) gives 0; otherwise the first
integer in the text, or -1 when none. -/
def parse_stops : StopsVal → Int
  | .intVal n => n
  | .strVal s =>
    if s = "" || s = "Unknown" then -1
    else if containsSub (lowerChars s) "nonstop".data then 0
    else
      match findFirstNum s.data with
      | some n => (n : Int)
      | none => -1

/-! ## Data model -/

/-- Raw one-way offer as produced by scraper.search_flights (a dict with keys
airline, departure_time, arrival_time, duration, stops, price). -/
structure RawFlight where
  airline : String
  departure_time : String
  arrival_time : String
  duration : String
  stops : StopsVal
  price : String
deriving DecidableEq

/-- Normalized leg record (a row of the legs CSV, LEGS_COLUMNS order). -/
structure Leg where
  direction : String
  destination : String
  city_name : String
  date : Nat
  price : Int
  airline : String
  duration_hrs : ℚ
  stops : Int
  departure_time : String
  arrival_time : String
deriving DecidableEq

/-- Python round(x, 2) (round-half-to-even), carried out exactly on
rationals; the binary floating-point representation error of the source is
not modelled. -/
def round2 (q : ℚ) : ℚ :=
  let scaled := q * 100
  let f : ℤ := ⌊scaled⌋
  let n : ℤ :=
    if scaled - f < 1/2 then f
    else if (1 : ℚ)/2 < scaled - f then f + 1
    else if f % 2 = 0 then f else f + 1
  (n : ℚ) / 100

/-- The leg record appended for a raw offer with parsed duration `d` and
parsed price `p` (the dict literal of main.py lines 125-136). -/
def legOfRaw (direction dest_code city_name : String) (dateN : Nat)
    (f : RawFlight) (d : ℚ) (p : Int) : Leg :=
  { direction := direction, destination := dest_code, city_name := city_name,
    date := dateN, price := p, airline := f.airline, duration_hrs := round2 d,
    stops := parse_stops f.stops, departure_time := f.departure_time,
    arrival_time := f.arrival_time }

/-- The normalization loop of main.search_and_save_leg (lines 110-138):
parse duration and price, drop offers with a missing parse or a duration at
or above the maximum, deduplicate on (airline, departure_time, price) keeping
the first occurrence.  A ValueError escaping parse_price propagates. -/
def normalize_go (direction dest_code city_name : String) (dateN : Nat) :
    List RawFlight → List (String × String × Int) → List Leg → Except Unit (List Leg)
  | [], _, acc => .ok acc.reverse
  | f :: rest, seen, acc =>
    let dur := parse_duration_hrs f.duration
    match parse_price f.price with
    | .error e => .error e
    | .ok priceOpt =>
      match dur, priceOpt with
      | some d, some p =>
        if MAX_DURATION_HOURS ≤ d then
          normalize_go direction dest_code city_name dateN rest seen acc
        else
          if seen.contains (f.airline, f.departure_time, p) then
            normalize_go direction dest_code city_name dateN rest seen acc
          else
            normalize_go direction dest_code city_name dateN rest
              ((f.airline, f.departure_time, p) :: seen)
              (legOfRaw direction dest_code city_name dateN f d p :: acc)
      | _, _ => normalize_go direction dest_code city_name dateN rest seen acc

def normalize_legs (direction dest_code city_name : String) (dateN : Nat)
    (raw : List RawFlight) : Except Unit (List Leg) :=
  normalize_go direction dest_code city_name dateN raw [] []

/-! ## Retry loop and search_and_save_leg (main.py lines 97-138) -/

/-- The body of the retry loop of search_and_save_leg, with `fuel` the number
of remaining loop iterations (`maxRetries - attempt`, so the recursion is
structural).  `search attempt` is the oracle giving the result of the search
call made on that attempt.  The value is (raw results on break, or [] when
the for-else falls through; number of search calls made; number of
random_delay sleeps performed). -/
def retry_go (search : Nat → List RawFlight) (maxRetries : Nat) :
    Nat → Nat → List RawFlight × Nat × Nat
  | _, 0 => ([], 0, 0)
  | attempt, fuel + 1 =>
    let raw := search attempt
    if raw.isEmpty then
      if attempt < maxRetries - 1 then
        let r := retry_go search maxRetries (attempt + 1) fuel
        (r.1, r.2.1 + 1, r.2.2 + 1)
      else ([], 1, 0)
    else (raw, 1, 0)

/-- The retry loop `for attempt in range(MAX_RETRIES)` of search_and_save_leg
(lines 101-108). -/
def retry_loop (search : Nat → List RawFlight) (maxRetries : Nat) :
    List RawFlight × Nat × Nat :=
  retry_go search maxRetries 0 maxRetries

/-- main.search_and_save_leg: retry the search up to MAX_RETRIES times, then
normalize the raw results; an exhausted retry loop returns the empty list. -/
def search_and_save_leg (search : Nat → List RawFlight)
    (direction dest_code city_name : String) (dateN : Nat) : Except Unit (List Leg) :=
  let raw := (retry_loop search MAX_RETRIES).1
  if raw.isEmpty then .ok []
  else normalize_legs direction dest_code city_name dateN raw

/-! ## scraper.search_flights -/

/-- Flight object returned by the fast-flights library. -/
structure ApiFlight where
  name : String
  departure : String
  arrival : String
  duration : String
  stops : StopsVal
  price : String
deriving DecidableEq

def flightOfApi (f : ApiFlight) : RawFlight :=
  { airline := f.name, departure_time := f.departure, arrival_time := f.arrival,
    duration := f.duration, stops := f.stops, price := f.price }

/-- The deduplication loop of scraper.search_flights: unique on
(name, departure, arrival, price), keeping the first occurrence. -/
def dedupe_go : List ApiFlight → List (String × String × String × String) → List RawFlight
  | [], _ => []
  | f :: rest, seen =>
    if seen.contains (f.name, f.departure, f.arrival, f.price) then dedupe_go rest seen
    else flightOfApi f :: dedupe_go rest ((f.name, f.departure, f.arrival, f.price) :: seen)

/-- scraper.search_flights: the remote get_flights call is an oracle that
either raises (`.error ()`) or returns a list of flight objects; any raised
exception is caught and turned into the empty list. -/
def search_flights (callResult : Except Unit (List ApiFlight)) : List RawFlight :=
  match callResult with
  | .ok res => dedupe_go res []
  | .error _ => []

/-! ## Trip combination (main._combine_legs_into_trips) -/

/-- Round-trip record (the dict literal of main.py lines 315-330). -/
structure Trip where
  destination : String
  city_name : String
  depart_date : Nat
  return_date : Nat
  trip_days : Nat
  outbound_price : Int
  return_price : Int
  total_price : Int
  outbound_airline : String
  return_airline : String
  outbound_duration_hrs : ℚ
  return_duration_hrs : ℚ
  outbound_stops : Int
  return_stops : Int
deriving DecidableEq

def legKey (l : Leg) : String × Nat := (l.destination, l.date)

/-- First-occurrence deduplication with an accumulator of already-seen
elements (used to enumerate the groupby keys). -/
def firstSeenAux {α : Type} [DecidableEq α] : List α → List α → List α
  | [], _ => []
  | k :: rest, seen =>
    if k ∈ seen then firstSeenAux rest seen
    else k :: firstSeenAux rest (k :: seen)

/-- First-occurrence deduplication (used to enumerate the groupby keys). -/
def firstSeen {α : Type} [DecidableEq α] (l : List α) : List α :=
  firstSeenAux l []

/-- sort_values("price").groupby(["destination", "date"]).first(): for each
(destination, date) key occurring in `legs`, the first leg bearing that key
in the price-sorted order (the cheapest leg of the group, ties resolved by
position after the stable sort). -/
def best_per_group (legs : List Leg) : List Leg :=
  let sorted := legs.insertionSort (fun a b => a.price ≤ b.price)
  (firstSeen (sorted.map legKey)).filterMap (fun k => sorted.find? (fun l => legKey l == k))

def mkTrip (o r : Leg) (trip_days : Nat) : Trip :=
  { destination := o.destination, city_name := o.city_name, depart_date := o.date,
    return_date := o.date + trip_days, trip_days := trip_days,
    outbound_price := o.price, return_price := r.price,
    total_price := o.price + r.price,
    outbound_airline := o.airline, return_airline := r.airline,
    outbound_duration_hrs := o.duration_hrs, return_duration_hrs := r.duration_hrs,
    outbound_stops := o.stops, return_stops := r.stops }

/-- main._combine_legs_into_trips: partition legs by direction; if either
partition is empty return no trips; select the best leg per (destination,
date) group in each partition; for every best outbound leg and every trip
length, join with the best return leg at (destination, depart_date +
trip_days) when it exists; sort the emitted trips by ascending total price. -/
def _combine_legs_into_trips (tripLengths : List Nat) (legs : List Leg) : List Trip :=
  let outbound := legs.filter (fun l => l.direction == "outbound")
  let returns := legs.filter (fun l => l.direction == "return")
  if outbound.isEmpty || returns.isEmpty then []
  else
    let best_outbound := best_per_group outbound
    let best_return := best_per_group returns
    let trips := best_outbound.flatMap (fun o =>
      tripLengths.filterMap (fun trip_days =>
        (best_return.find? (fun r => r.destination == o.destination &&
            r.date == o.date + trip_days)).map (fun r => mkTrip o r trip_days)))
    trips.insertionSort (fun a b => a.total_price ≤ b.total_price)

/-! ## Excel report (main.build_excel_report) -/

def BUDGET_AIRLINES : List String := ["Frontier", "Spirit"]

/-- legs_df["airline"].str.contains("Frontier|Spirit", case=False): the
airline contains one of the budget names, case-insensitively. -/
def matches_budget (airline : String) : Bool :=
  BUDGET_AIRLINES.any (fun b => containsSub (lowerChars airline) (lowerChars b))

/-- main.build_excel_report, modelled as the pair of trip data sets handed to
the two worksheets ("All Airlines", "No Budget Airlines"); cell formatting
and the top-N display grouping are presentation glue outside the model.  The
second sheet is built by filtering budget airlines out of the raw legs first
and re-running the combination. -/
def build_excel_report (tripLengths : List Nat) (trips_df : List Trip)
    (legs_df : List Leg) : List Trip × List Trip :=
  (trips_df,
   _combine_legs_into_trips tripLengths
     (legs_df.filter (fun l => !(matches_budget l.airline))))

/-! ## Task planning (main.main, lines 439-462) -/

/-- Task identity key (direction, destination code, date). -/
abbrev TaskKey := String × String × Nat

structure SearchTask where
  key : TaskKey
  origin : String
  dest : String
  dest_code : String
  city_name : String
  date : Nat
deriving DecidableEq

/-- The task-building section of main.main: one outbound and one return task
per (destination, date in range) whose key is not completed, then extra
return tasks for the trailing window of max(tripLengths) days after the last
date.  `destinations` is the (code, city name) list. -/
def plan_tasks (origin : String) (destinations : List (String × String))
    (start endD : Nat) (tripLengths : List Nat) (completed : List TaskKey) :
    List SearchTask :=
  let dates := generate_dates start endD
  let base := destinations.flatMap (fun dc =>
    dates.flatMap (fun d =>
      (if ("outbound", dc.1, d) ∈ completed then [] else
        [{ key := ("outbound", dc.1, d), origin := origin, dest := dc.1,
           dest_code := dc.1, city_name := dc.2, date := d }]) ++
      (if ("return", dc.1, d) ∈ completed then [] else
        [{ key := ("return", dc.1, d), origin := dc.1, dest := origin,
           dest_code := dc.1, city_name := dc.2, date := d }])))
  let max_trip := tripLengths.foldr max 0
  let lastD := dates.getLastD 0
  let extra := (List.range' (lastD + 1) max_trip).flatMap (fun d =>
    destinations.filterMap (fun dc =>
      if ("return", dc.1, d) ∈ completed then none
      else some { key := ("return", dc.1, d), origin := dc.1, dest := origin,
                  dest_code := dc.1, city_name := dc.2, date := d }))
  base ++ extra

/-- The outbound task record emitted by main for a destination and date
(origin to destination). -/
def outboundTask (origin : String) (dc : String × String) (d : Nat) : SearchTask :=
  { key := ("outbound", dc.1, d), origin := origin, dest := dc.1,
    dest_code := dc.1, city_name := dc.2, date := d }

/-- The return task record emitted by main for a destination and date
(destination to origin). -/
def returnTask (origin : String) (dc : String × String) (d : Nat) : SearchTask :=
  { key := ("return", dc.1, d), origin := dc.1, dest := origin,
    dest_code := dc.1, city_name := dc.2, date := d }

/-! ## Result collection and progress persistence (main.main, lines 494-526) -/

/-- Orchestrator state: the in-memory completed-key set, the number of
collected completions, and the contents of the progress file on disk. -/
structure OrchState where
  completed : List TaskKey
  count : Nat
  progress_file : List TaskKey
deriving DecidableEq

/-- main.save_progress: overwrite the progress file with the completed set. -/
def save_progress (st : OrchState) : OrchState :=
  { st with progress_file := st.completed }

/-- One iteration of the as_completed collection loop: increment the counter,
add the task key to the completed set (both the success and the exception
branch do this), and flush to the progress file on every 20th completion. -/
def record_completion (st : OrchState) (key : TaskKey) : OrchState :=
  let st' := { st with count := st.count + 1, completed := st.completed.insert key }
  if st'.count % 20 = 0 then save_progress st' else st'

def run_collection (st : OrchState) (events : List TaskKey) : OrchState :=
  events.foldl record_completion st

/-- The collection phase of main.main when a KeyboardInterrupt arrives after
`k` completions have been observed (`k ≥ length events` means an uninterrupted
run): the loop body runs for the first `k` completion events, and the
unconditional save_progress after the try/except always runs. -/
def collection_with_interrupt (preloaded : List TaskKey) (events : List TaskKey)
    (k : Nat) : OrchState :=
  save_progress (run_collection ⟨preloaded, 0, preloaded⟩ (events.take k))

/-! ## AI extraction path (ai_parser.parse_flights_from_html) -/

/-- Flight dict in the extraction schema; `none` models an absent key.  Award
flights carry miles_cost rather than price, yet a dict may hold any keys, so
both optional fields are modelled. -/
structure FlightDict where
  duration_hrs : Option ℚ
  price : Option Int
  miles_cost : Option Int
deriving DecidableEq

/-- Python str.strip(): drop whitespace at both ends. -/
def pyStrip (cs : List Char) : List Char :=
  ((cs.dropWhile Char.isWhitespace).reverse.dropWhile Char.isWhitespace).reverse

/-- Three backtick characters (a markdown code fence). -/
def fenceChars : List Char := [Char.ofNat 96, Char.ofNat 96, Char.ofNat 96]

def dropTrailingWs (cs : List Char) : List Char :=
  (cs.reverse.dropWhile Char.isWhitespace).reverse

/-- The markdown code-fence handling of parse_flights_from_html: when the
content starts with a fence, strip the leading fence with an optional "json"
tag and following whitespace, and strip a trailing fence with preceding
whitespace when one is present. -/
def strip_fences (cs : List Char) : List Char :=
  if fenceChars.isPrefixOf cs then
    let t := cs.drop 3
    let t := if ['j', 's', 'o', 'n'].isPrefixOf t then t.drop 4 else t
    let t := t.dropWhile Char.isWhitespace
    if fenceChars.isSuffixOf t then dropTrailingWs (t.take (t.length - 3))
    else t
  else cs

/-- ai_parser.parse_flights_from_html: the whole chat-completion call is an
oracle that either raises (`.error ()`) or returns the message content;
`jsonLoads` is the json.loads oracle, `none` modelling a JSONDecodeError.
Every exception is caught and turned into the empty list. -/
def parse_flights_from_html (callResult : Except Unit String)
    (jsonLoads : String → Option (List FlightDict)) : List FlightDict :=
  match callResult with
  | .error _ => []
  | .ok raw =>
    match jsonLoads ⟨strip_fences (pyStrip raw.data)⟩ with
    | some arr => arr
    | none => []

/-! ## filter_and_rank.filter_flights -/

/-- filter_and_rank.filter_flights: keep flights whose duration value
(defaulting to float("inf") when the key is absent, which compares below no
finite bound) is strictly less than the maximum.  No other field is
examined. -/
def filter_flights (flights : List FlightDict) (max_duration_hrs : ℚ) :
    List FlightDict :=
  flights.filter (fun f =>
    match f.duration_hrs with
    | some d => decide (d < max_duration_hrs)
    | none => false)

/-! ## Order instances for the sort relations -/

instance : IsTotal Leg (fun a b => a.price ≤ b.price) :=
  ⟨fun a b => le_total a.price b.price⟩

instance : IsTrans Leg (fun a b => a.price ≤ b.price) :=
  ⟨fun _ _ _ => le_trans⟩

instance : IsTotal Trip (fun a b => a.total_price ≤ b.total_price) :=
  ⟨fun a b => le_total a.total_price b.total_price⟩

instance : IsTrans Trip (fun a b => a.total_price ≤ b.total_price) :=
  ⟨fun _ _ _ => le_trans⟩

/-! ## Example data

Day numbers realise the dates of the spec examples: 2026-05-01 is day 0, so
2026-05-05 is day 4. -/

def exOutLeg (price : Int) (airline dep : String) : Leg :=
  { direction := "outbound", destination := "CUN", city_name := "Cancun", date := 0,
    price := price, airline := airline, duration_hrs := 5, stops := 0,
    departure_time := dep, arrival_time := "13:00" }

def exRetLeg (price : Int) (airline : String) : Leg :=
  { direction := "return", destination := "CUN", city_name := "Cancun", date := 4,
    price := price, airline := airline, duration_hrs := 5, stops := 0,
    departure_time := "10:00", arrival_time := "15:00" }

/-- The leg store of the TripCombiner correctness example: outbound CUN
2026-05-01 at 300 and 250 dollars, return CUN 2026-05-05 at 200 dollars. -/
def exC1Legs : List Leg :=
  [exOutLeg 300 "JetBlue" "08:00", exOutLeg 250 "Delta" "09:00", exRetLeg 200 "JetBlue"]

/-- The leg store of the budget-exclusion example: the cheapest outbound is a
budget airline (Spirit, 200), a dearer non-budget outbound exists (Delta,
260), and the return is non-budget (JetBlue, 210). -/
def exC2Legs : List Leg :=
  [exOutLeg 200 "Spirit Airlines" "07:00", exOutLeg 260 "Delta" "09:00",
   exRetLeg 210 "JetBlue"]

def exApiFlight : ApiFlight :=
  { name := "JetBlue", departure := "08:00", arrival := "13:00",
    duration := "5 hr", stops := .strVal "Nonstop", price := "$300" }

def exRawFlight : RawFlight :=
  { airline := "Delta", departure_time := "09:00", arrival_time := "13:00",
    duration := "5 hr", stops := .strVal "Nonstop", price := "$250" }

def exRawOffer (dur price dep : String) : RawFlight :=
  { airline := "Delta", departure_time := dep, arrival_time := "13:00",
    duration := dur, stops := .strVal "Nonstop", price := price }

def fdExactTen : FlightDict := { duration_hrs := some 10, price := some 100, miles_cost := none }

def fdNearTen : FlightDict :=
  { duration_hrs := some (999 / 100), price := some 100, miles_cost := none }

def fdNoDur : FlightDict := { duration_hrs := none, price := some 100, miles_cost := none }

def pricelessFlight : FlightDict :=
  { duration_hrs := some 5, price := none, miles_cost := none }

/-! ## Helper lemmas -/

theorem priceGroup_eq_none : ∀ cs : List Char, (∀ c ∈ cs, isPriceChar c = false) →
    priceGroup cs = none := by
  intro cs h
  induction cs with
  | nil => rfl
  | cons c rest ih =>
    have hc : isPriceChar c = false := h c (List.mem_cons_self c rest)
    have ih' := ih (fun x hx => h x (List.mem_cons_of_mem c hx))
    cases rest with
    | nil => simp [priceGroup, hc]
    | cons d t =>
      have hd : isPriceChar d = false := h d (by simp)
      rw [priceGroup.eq_def]
      simp only [hd, hc, Bool.and_false, Bool.false_eq_true, if_false]
      exact ih'

theorem mem_dedupe_go : ∀ (rest : List ApiFlight) (seen : List (String × String × String × String))
    (r : RawFlight), r ∈ dedupe_go rest seen → ∃ f ∈ rest, r = flightOfApi f := by
  intro rest
  induction rest with
  | nil => intro seen r hr; simp [dedupe_go] at hr
  | cons f t ih =>
    intro seen r hr
    rw [dedupe_go] at hr
    split at hr
    · rcases ih _ r hr with ⟨g, hg, hrg⟩
      exact ⟨g, List.mem_cons_of_mem f hg, hrg⟩
    · rcases List.mem_cons.mp hr with h1 | h1
      · exact ⟨f, List.mem_cons_self f t, h1⟩
      · rcases ih _ r h1 with ⟨g, hg, hrg⟩
        exact ⟨g, List.mem_cons_of_mem f hg, hrg⟩


/-! ## C6 -/

/-- C6: _combine_legs_into_trips is a deterministic pure function of the leg
store; running the combination on the same unchanged leg list twice yields
the identical trip list (same rows, same order); the only inputs are the
configured trip lengths and the leg list. -/
theorem c6_combine_deterministic :
    ∀ (tl : List Nat) (legs1 legs2 : List Leg), legs1 = legs2 →
      _combine_legs_into_trips tl legs1 = _combine_legs_into_trips tl legs2 := by
  intro tl legs1 legs2 h
  rw [h]

/-- C6 witness: the determinism theorem applied at the concrete example leg
store. -/
theorem c6_combine_deterministic_witness :
    _combine_legs_into_trips TRIP_LENGTHS exC1Legs =
      _combine_legs_into_trips TRIP_LENGTHS exC1Legs :=
  c6_combine_deterministic TRIP_LENGTHS exC1Legs exC1Legs rfl

/-! ## C7 -/

/-- C7: parse_flights_from_html never propagates an exception, for every
behaviour of the text-extraction call (the `callResult` oracle) and of the
JSON decoder: a raised extraction call gives []; content whose fence-stripped
text fails to decode gives []; content that decodes to an array is returned
as is; and fence stripping removes a surrounding markdown code fence. -/
theorem c7_parse_flights_total :
    (∀ jsonLoads, parse_flights_from_html (.error ()) jsonLoads = []) ∧
    (∀ s jsonLoads, jsonLoads ⟨strip_fences (pyStrip s.data)⟩ = none →
      parse_flights_from_html (.ok s) jsonLoads = []) ∧
    (∀ s jsonLoads arr, jsonLoads ⟨strip_fences (pyStrip s.data)⟩ = some arr →
      parse_flights_from_html (.ok s) jsonLoads = arr) ∧
    strip_fences (pyStrip "```json\n[]\n```".data) = "[]".data := by
  refine ⟨fun jsonLoads => rfl, fun s jsonLoads h => ?_, fun s jsonLoads arr h => ?_, by decide⟩
  · simp [parse_flights_from_html, h]
  · simp [parse_flights_from_html, h]

/-- C7 witness: malformed extraction output (a decoder that fails) on
concrete content yields the empty list rather than an error. -/
theorem c7_parse_flights_total_witness :
    parse_flights_from_html (.ok "not valid json") (fun _ => none) = [] :=
  c7_parse_flights_total.2.1 "not valid json" (fun _ => none) rfl

/-! ## C9 -/

/-- C9 counterexample: on the input ",", the pattern \$?([\d,]+) matches the
all-comma group ",", the comma stripping leaves the empty string, and Python
int("") raises ValueError — parse_price neither returns an integer nor null,
contradicting the claim that it totally returns int-or-null on every input. -/
theorem c9_parse_price_counterexample :
    parse_price "," = .error () ∧ ∀ v : Option Int, parse_price "," ≠ .ok v := by
  refine ⟨by decide, fun v h => ?_⟩
  rw [(by decide : parse_price "," = .error ())] at h
  exact Except.noConfusion h

/-- C9 (amended): parse_price returns null (.ok none) for empty input and for
input holding neither a digit nor a comma; extracts the leading optional
dollar sign plus digit/comma group, strips commas, and returns the resulting
integer when at least one digit remains (so parse_price "$1,234" is 1234);
but when the matched group consists solely of commas, the int conversion
raises ValueError instead of returning null. -/
theorem c9_parse_price_amended :
    parse_price "" = .ok none ∧
    parse_price "$1,234" = .ok (some 1234) ∧
    (∀ s : String, (∀ c ∈ s.data, isPriceChar c = false) → parse_price s = .ok none) ∧
    (∀ s g, priceGroup s.data = some g → (g.filter (fun c => c ≠ ',')).isEmpty = false →
      parse_price s = .ok (some ((digitsVal (g.filter (fun c => c ≠ ',')) : Nat) : Int))) ∧
    (∀ s g, priceGroup s.data = some g → (∀ c ∈ g, c = ',') → g ≠ [] →
      parse_price s = .error ()) := by
  refine ⟨by decide, by decide, fun s h => ?_, fun s g hg hne => ?_, fun s g hg hall hne => ?_⟩
  · have hnone : priceGroup s.data = none := priceGroup_eq_none s.data h
    by_cases hs : s = ""
    · rw [hs]; decide
    · simp [parse_price, hs, hnone]
  · have hs : s ≠ "" := fun h => by
      rw [h] at hg; exact Option.noConfusion hg
    simp [parse_price, hs, hg, hne]
    simpa using hne
  · have hs : s ≠ "" := fun h => by
      rw [h] at hg; exact Option.noConfusion hg
    simp [parse_price, hs, hg]
    exact hall

/-- C9 amended witness: the amended theorem applied at concrete inputs "!!"
(no match: null) and "x9z" (match "9": integer 9). -/
theorem c9_parse_price_amended_witness :
    parse_price "!!" = .ok none ∧ parse_price "x9z" = .ok (some 9) := by
  constructor
  · exact c9_parse_price_amended.2.2.1 "!!" (by decide)
  · exact (c9_parse_price_amended.2.2.2.1 "x9z" ['9'] (by decide) (by decide)).trans (by decide)

/-! ## C10 -/


/-- C10: search_flights returns a list for every behaviour of the remote
get_flights call, including a raised exception: an exception yields the empty
list, indistinguishable from an ordinary empty result; every returned record
is the dict built from some flight of the remote result; and a search whose
remote call always raises flows through the orchestrator's retry loop as an
ordinary empty search, returning .ok [] with no exception reaching the
orchestrator. -/
theorem c10_search_flights_never_raises :
    search_flights (.error ()) = [] ∧
    search_flights (.error ()) = search_flights (.ok []) ∧
    (∀ res, ∀ r ∈ search_flights (.ok res), ∃ f ∈ res, r = flightOfApi f) ∧
    (∀ d dc cn n, search_and_save_leg (fun _ => search_flights (.error ())) d dc cn n =
      .ok []) := by
  refine ⟨rfl, rfl, fun res r hr => ?_, fun d dc cn n => rfl⟩
  exact mem_dedupe_go res [] r hr

/-- C10 witness: the record-provenance conjunct applied at a concrete remote
result. -/
theorem c10_search_flights_never_raises_witness :
    ∃ f ∈ [exApiFlight], flightOfApi exApiFlight = flightOfApi f :=
  c10_search_flights_never_raises.2.2.1 [exApiFlight] (flightOfApi exApiFlight) (by decide)

/-! ## Retry-loop lemmas -/

theorem retry_go_calls_le (search : Nat → List RawFlight) (maxRetries : Nat) :
    ∀ fuel attempt, (retry_go search maxRetries attempt fuel).2.1 ≤ fuel := by
  intro fuel
  induction fuel with
  | zero => intro attempt; simp [retry_go]
  | succ n ih =>
    intro attempt
    by_cases he : (search attempt).isEmpty
    · by_cases hlt : attempt < maxRetries - 1
      · simp only [retry_go, he, hlt, if_true]
        exact Nat.succ_le_succ (ih (attempt + 1))
      · simp [retry_go, he, hlt]
    · simp [retry_go, he]

theorem retry_go_all_empty (search : Nat → List RawFlight) (maxRetries : Nat) :
    ∀ fuel attempt, attempt + fuel = maxRetries → 0 < fuel →
      (∀ i, i < maxRetries → search i = []) →
      retry_go search maxRetries attempt fuel = ([], fuel, fuel - 1) := by
  intro fuel
  induction fuel with
  | zero => intro attempt _ h0 _; exact absurd h0 (by omega)
  | succ n ih =>
    intro attempt hsum _ hempty
    have he : (search attempt).isEmpty = true := by
      rw [hempty attempt (by omega)]; rfl
    by_cases hlt : attempt < maxRetries - 1
    · have hn : 0 < n := by omega
      have hrec := ih (attempt + 1) (by omega) hn hempty
      simp only [retry_go, he, hlt, if_true, hrec]
      have : n - 1 + 1 = n := by omega
      simp [this]
    · have hn : n = 0 := by omega
      subst hn
      simp [retry_go, he, hlt]

theorem retry_go_first_success (search : Nat → List RawFlight) (maxRetries : Nat) :
    ∀ fuel attempt i, attempt + fuel = maxRetries → attempt ≤ i → i < maxRetries →
      (∀ j, attempt ≤ j → j < i → search j = []) → search i ≠ [] →
      retry_go search maxRetries attempt fuel = (search i, i + 1 - attempt, i - attempt) := by
  intro fuel
  induction fuel with
  | zero => intro attempt i hsum hle hlt _ _; omega
  | succ n ih =>
    intro attempt i hsum hle hlt hempty hne
    by_cases hai : attempt = i
    · subst hai
      have he : (search attempt).isEmpty = false := by
        cases hs : search attempt with
        | nil => exact absurd hs hne
        | cons a t => rfl
      simp only [retry_go, he, Bool.false_eq_true, if_false]
      rw [Prod.mk.injEq, Prod.mk.injEq]
      refine ⟨rfl, by omega, by omega⟩
    · have hlt2 : attempt < i := lt_of_le_of_ne hle hai
      have he : (search attempt).isEmpty = true := by
        rw [hempty attempt le_rfl hlt2]; rfl
      have hltm : attempt < maxRetries - 1 := by omega
      have hrec := ih (attempt + 1) i (by omega) (by omega) hlt
        (fun j hj1 hj2 => hempty j (by omega) hj2) hne
      simp only [retry_go, he, hltm, if_true, hrec]
      rw [Prod.mk.injEq, Prod.mk.injEq]
      refine ⟨rfl, by omega, by omega⟩

theorem record_completion_completed (st : OrchState) (e : TaskKey) :
    (record_completion st e).completed = st.completed.insert e := by
  rw [record_completion]
  split <;> rfl

theorem run_collection_completed_mem :
    ∀ (events : List TaskKey) (st : OrchState) (key : TaskKey),
      key ∈ st.completed ∨ key ∈ events → key ∈ (run_collection st events).completed := by
  intro events
  induction events with
  | nil =>
    intro st key h
    rcases h with h | h
    · exact h
    · simp at h
  | cons e t ih =>
    intro st key h
    have hstep : run_collection st (e :: t) = run_collection (record_completion st e) t := by
      simp [run_collection]
    rw [hstep]
    apply ih
    rcases h with h | h
    · exact Or.inl (by rw [record_completion_completed]; exact List.mem_insert_of_mem h)
    · rcases List.mem_cons.mp h with h1 | h1
      · exact Or.inl (by rw [record_completion_completed, h1]; exact List.mem_insert_self _ _)
      · exact Or.inr h1

/-! ## C4 -/


/-- C4: search_and_save_leg makes at most MAX_RETRIES search calls; when every
attempt returns an empty result the loop makes exactly MAX_RETRIES calls and
MAX_RETRIES - 1 sleeps (a randomized delay before each retry but none after
the final failed attempt) and the function returns the empty list; when the
first non-empty result arrives on attempt i the loop stops there with i + 1
calls and i sleeps; and the caller's collection step marks the task key
completed (for failed tasks as well), so it is excluded from subsequent
planning. -/
theorem c4_retry_behaviour :
    (∀ search, (retry_loop search MAX_RETRIES).2.1 ≤ MAX_RETRIES) ∧
    (∀ search, (∀ i, i < MAX_RETRIES → search i = []) →
      retry_loop search MAX_RETRIES = ([], MAX_RETRIES, MAX_RETRIES - 1) ∧
      (∀ d dc cn n, search_and_save_leg search d dc cn n = .ok [])) ∧
    (∀ search i, i < MAX_RETRIES → (∀ j, j < i → search j = []) → search i ≠ [] →
      retry_loop search MAX_RETRIES = (search i, i + 1, i)) ∧
    (∀ st k, k ∈ (record_completion st k).completed) := by
  refine ⟨fun search => retry_go_calls_le search MAX_RETRIES MAX_RETRIES 0,
    fun search h => ?_, fun search i hi hj hne => ?_, fun st k => ?_⟩
  · have hloop : retry_loop search MAX_RETRIES = ([], MAX_RETRIES, MAX_RETRIES - 1) :=
      retry_go_all_empty search MAX_RETRIES MAX_RETRIES 0 (by omega) (by decide) h
    refine ⟨hloop, fun d dc cn n => ?_⟩
    simp [search_and_save_leg, hloop]
  · have := retry_go_first_success search MAX_RETRIES MAX_RETRIES 0 i (by omega) (by omega) hi
      (fun j _ hj2 => hj j hj2) hne
    simpa using this
  · rw [record_completion_completed]
    exact List.mem_insert_self _ _

/-- C4 witness: the retry theorem applied to a permanently-empty search oracle
(three calls, two sleeps, empty result) and to an oracle succeeding on the
second attempt (two calls, one sleep, results of that attempt). -/
theorem c4_retry_behaviour_witness :
    retry_loop (fun _ => []) MAX_RETRIES = ([], MAX_RETRIES, MAX_RETRIES - 1) ∧
    search_and_save_leg (fun _ => []) "outbound" "CUN" "Cancun" 0 = .ok [] ∧
    retry_loop (fun i => if i = 1 then [exRawFlight] else []) MAX_RETRIES =
      ([exRawFlight], 2, 1) := by
  refine ⟨(c4_retry_behaviour.2.1 (fun _ => []) (fun i _ => rfl)).1,
    (c4_retry_behaviour.2.1 (fun _ => []) (fun i _ => rfl)).2 "outbound" "CUN" "Cancun" 0, ?_⟩
  have := c4_retry_behaviour.2.2.1 (fun i => if i = 1 then [exRawFlight] else []) 1
    (by decide) (fun j hj => match j, hj with
      | 0, _ => rfl
      | n + 1, hj => absurd hj (by omega)) (by simp)
  simpa using this

/-! ## C5 -/

/-- C5: the collection loop flushes the completed-key set to the progress file
after every completion whose ordinal is divisible by 20; the run with a
KeyboardInterrupt after k completions still ends with an unconditional
save_progress, so the final progress file equals the completed set and
contains every key whose completion was observed before the interrupt (and
every preloaded key). -/
theorem c5_progress_flush :
    (∀ st k, (record_completion st k).count % 20 = 0 →
      (record_completion st k).progress_file = (record_completion st k).completed) ∧
    (∀ preloaded events k,
      (collection_with_interrupt preloaded events k).progress_file =
        (collection_with_interrupt preloaded events k).completed) ∧
    (∀ preloaded events k key, key ∈ events.take k ∨ key ∈ preloaded →
      key ∈ (collection_with_interrupt preloaded events k).progress_file) := by
  refine ⟨fun st k h => ?_, fun p e k => rfl, fun p e k key h => ?_⟩
  · by_cases hc : (st.count + 1) % 20 = 0
    · simp [record_completion, save_progress, hc]
    · simp [record_completion, save_progress, hc] at h
  · show key ∈ (save_progress (run_collection ⟨p, 0, p⟩ (e.take k))).progress_file
    show key ∈ (run_collection ⟨p, 0, p⟩ (e.take k)).completed
    apply run_collection_completed_mem
    rcases h with h | h
    · exact Or.inr h
    · exact Or.inl h

/-- C5 witness: interrupting after one completion of a two-task run leaves a
progress file containing the observed key. -/
theorem c5_progress_flush_witness :
    (("outbound", "CUN", 10) : TaskKey) ∈
      (collection_with_interrupt [] [("outbound", "CUN", 10), ("return", "CUN", 10)] 1).progress_file :=
  c5_progress_flush.2.2 [] [("outbound", "CUN", 10), ("return", "CUN", 10)] 1
    ("outbound", "CUN", 10) (Or.inl (by decide))

/-! ## Normalization soundness -/

theorem normalize_go_sound (dir dc cn : String) (n : Nat) :
    ∀ (raw : List RawFlight) (seen : List (String × String × Int)) (acc results : List Leg),
      normalize_go dir dc cn n raw seen acc = .ok results →
      ∀ leg ∈ results, leg ∈ acc ∨
        ∃ f ∈ raw, ∃ d p, parse_duration_hrs f.duration = some d ∧
          d < MAX_DURATION_HOURS ∧ parse_price f.price = .ok (some p) ∧
          leg = legOfRaw dir dc cn n f d p := by
  intro raw
  induction raw with
  | nil =>
    intro seen acc results h leg hleg
    rw [normalize_go] at h
    cases h
    exact Or.inl (List.mem_reverse.mp hleg)
  | cons f rest ih =>
    intro seen acc results h leg hleg
    have lift : (leg ∈ acc ∨ ∃ g ∈ rest, ∃ d p, parse_duration_hrs g.duration = some d ∧
        d < MAX_DURATION_HOURS ∧ parse_price g.price = .ok (some p) ∧
        leg = legOfRaw dir dc cn n g d p) →
        leg ∈ acc ∨ ∃ g ∈ f :: rest, ∃ d p, parse_duration_hrs g.duration = some d ∧
          d < MAX_DURATION_HOURS ∧ parse_price g.price = .ok (some p) ∧
          leg = legOfRaw dir dc cn n g d p := by
      rintro (h1 | ⟨g, hg, hrest⟩)
      · exact Or.inl h1
      · exact Or.inr ⟨g, List.mem_cons_of_mem f hg, hrest⟩
    rw [normalize_go] at h
    cases hpp : parse_price f.price with
    | error e =>
      rw [hpp] at h
      exact absurd h (by simp)
    | ok priceOpt =>
      rw [hpp] at h
      cases hd : parse_duration_hrs f.duration with
      | none =>
        rw [hd] at h
        cases priceOpt with
        | none => exact lift (ih seen acc results h leg hleg)
        | some p => exact lift (ih seen acc results h leg hleg)
      | some d =>
        rw [hd] at h
        cases priceOpt with
        | none => exact lift (ih seen acc results h leg hleg)
        | some p =>
          simp only at h
          by_cases hmax : MAX_DURATION_HOURS ≤ d
          · rw [if_pos hmax] at h
            exact lift (ih seen acc results h leg hleg)
          · rw [if_neg hmax] at h
            by_cases hseen : seen.contains (f.airline, f.departure_time, p) = true
            · rw [if_pos hseen] at h
              exact lift (ih seen acc results h leg hleg)
            · rw [if_neg hseen] at h
              rcases ih _ _ _ h leg hleg with h1 | h1
              · rcases List.mem_cons.mp h1 with h2 | h2
                · exact Or.inr ⟨f, List.mem_cons_self f rest,
                    d, p, hd, lt_of_not_le hmax, hpp, h2⟩
                · exact Or.inl h2
              · exact lift (Or.inr h1)

/-! ## C8 -/

/-- C8 counterexample: filter_flights keeps an offer whose price (and
miles_cost) is missing, as long as its duration is below the maximum — it
examines only the duration — so "in filter_flights an offer is kept only if
its parsed duration and parsed price are both present" is false. -/
theorem c8_filter_keeps_priceless_counterexample :
    pricelessFlight ∈ filter_flights [pricelessFlight] 10 ∧
    pricelessFlight.price = none ∧ pricelessFlight.miles_cost = none := by
  refine ⟨?_, rfl, rfl⟩
  norm_num [filter_flights, pricelessFlight]

/-- C8 (amended): in leg normalization an offer is kept only if its parsed
duration and parsed price are both present and the duration is strictly below
MAX_DURATION_HOURS (offers missing either value, or at/above the maximum,
contribute nothing); in filter_flights an offer is kept exactly when its
duration value is present and strictly below the maximum — the price is not
examined there.  With maximum 10: a 10.0-hour offer is excluded and a
9.99-hour offer is included. -/
theorem c8_duration_filter_amended :
    (∀ dir dc cn n raw results, normalize_legs dir dc cn n raw = .ok results →
      ∀ leg ∈ results, ∃ f ∈ raw, ∃ d p, parse_duration_hrs f.duration = some d ∧
        d < MAX_DURATION_HOURS ∧ parse_price f.price = .ok (some p) ∧
        leg = legOfRaw dir dc cn n f d p) ∧
    (∀ fs maxd f, f ∈ filter_flights fs maxd ↔
      (f ∈ fs ∧ ∃ d, f.duration_hrs = some d ∧ d < maxd)) ∧
    normalize_legs "outbound" "CUN" "Cancun" 0
      [exRawOffer "10 hr" "$300" "08:00", exRawOffer "9 hr" "$250" "09:00",
       exRawOffer "" "$100" "07:00", exRawOffer "5 hr" "x" "06:00"] =
      .ok [legOfRaw "outbound" "CUN" "Cancun" 0 (exRawOffer "9 hr" "$250" "09:00") 9 250] ∧
    filter_flights [fdExactTen, fdNearTen, fdNoDur] 10 = [fdNearTen] := by
  refine ⟨?_, ?_, ?_, ?_⟩
  · intro dir dc cn n raw results h leg hleg
    rcases normalize_go_sound dir dc cn n raw [] [] results h leg hleg with h1 | h1
    · simp at h1
    · exact h1
  · intro fs maxd f
    simp only [filter_flights, List.mem_filter]
    constructor
    · rintro ⟨hmem, hpred⟩
      refine ⟨hmem, ?_⟩
      cases hfd : f.duration_hrs with
      | none => rw [hfd] at hpred; exact absurd hpred (by simp)
      | some d =>
        rw [hfd] at hpred
        exact ⟨d, rfl, of_decide_eq_true hpred⟩
    · rintro ⟨hmem, d, hfd, hlt⟩
      exact ⟨hmem, by rw [hfd]; exact decide_eq_true hlt⟩
  · have hf10a : findNumBefore ['h', 'r'] "10 hr".data = some 10 := by decide
    have hf10b : findNumBefore ['m', 'i', 'n'] "10 hr".data = none := by decide
    have hf9a : findNumBefore ['h', 'r'] "9 hr".data = some 9 := by decide
    have hf9b : findNumBefore ['m', 'i', 'n'] "9 hr".data = none := by decide
    have hf5a : findNumBefore ['h', 'r'] "5 hr".data = some 5 := by decide
    have hf5b : findNumBefore ['m', 'i', 'n'] "5 hr".data = none := by decide
    have hd10 : parse_duration_hrs "10 hr" = some 10 := by
      simp [parse_duration_hrs, hf10a, hf10b]
    have hd9 : parse_duration_hrs "9 hr" = some 9 := by
      simp [parse_duration_hrs, hf9a, hf9b]
    have hd5 : parse_duration_hrs "5 hr" = some 5 := by
      simp [parse_duration_hrs, hf5a, hf5b]
    have hdn : parse_duration_hrs "" = none := by decide
    have hp300 : parse_price "$300" = .ok (some 300) := by decide
    have hp250 : parse_price "$250" = .ok (some 250) := by decide
    have hp100 : parse_price "$100" = .ok (some 100) := by decide
    have hpx : parse_price "x" = .ok none := by decide
    have hle1 : MAX_DURATION_HOURS ≤ (10 : ℚ) := by norm_num [MAX_DURATION_HOURS]
    have hle2 : ¬ MAX_DURATION_HOURS ≤ (9 : ℚ) := by norm_num [MAX_DURATION_HOURS]
    simp [normalize_legs, normalize_go, exRawOffer, hd10, hd9, hd5, hdn,
      hp300, hp250, hp100, hpx, hle1, hle2]
  · norm_num [filter_flights, fdExactTen, fdNearTen, fdNoDur]

/-- C8 witness: the normalization soundness conjunct applied to the concrete
run (the surviving leg comes from the 9-hour offer with price 250 below the
maximum), and the filter_flights characterization applied to the 9.99-hour
flight. -/
theorem c8_duration_filter_amended_witness :
    (∃ f ∈ [exRawOffer "10 hr" "$300" "08:00", exRawOffer "9 hr" "$250" "09:00",
        exRawOffer "" "$100" "07:00", exRawOffer "5 hr" "x" "06:00"],
      ∃ d p, parse_duration_hrs f.duration = some d ∧ d < MAX_DURATION_HOURS ∧
        parse_price f.price = .ok (some p) ∧
        legOfRaw "outbound" "CUN" "Cancun" 0 (exRawOffer "9 hr" "$250" "09:00") 9 250 =
          legOfRaw "outbound" "CUN" "Cancun" 0 f d p) ∧
    fdNearTen ∈ filter_flights [fdExactTen, fdNearTen, fdNoDur] 10 := by
  constructor
  · exact c8_duration_filter_amended.1 "outbound" "CUN" "Cancun" 0 _ _
      c8_duration_filter_amended.2.2.1 _ (List.mem_singleton.mpr rfl)
  · exact (c8_duration_filter_amended.2.1 [fdExactTen, fdNearTen, fdNoDur] 10 fdNearTen).mpr
      ⟨by simp, 999 / 100, rfl, by norm_num⟩

/-! ## Trip-combination lemmas -/


theorem firstSeenAux_mem {α : Type} [DecidableEq α] :
    ∀ (l seen : List α) (x : α), x ∈ firstSeenAux l seen ↔ (x ∈ l ∧ x ∉ seen) := by
  intro l
  induction l with
  | nil => intro seen x; simp [firstSeenAux]
  | cons k rest ih =>
    intro seen x
    rw [firstSeenAux]
    by_cases hk : k ∈ seen
    · rw [if_pos hk, ih]
      constructor
      · rintro ⟨h1, h2⟩; exact ⟨List.mem_cons_of_mem k h1, h2⟩
      · rintro ⟨h1, h2⟩
        rcases List.mem_cons.mp h1 with rfl | h1
        · exact absurd hk h2
        · exact ⟨h1, h2⟩
    · rw [if_neg hk]
      constructor
      · intro h1
        rcases List.mem_cons.mp h1 with rfl | h1
        · exact ⟨List.mem_cons_self _ _, hk⟩
        · rcases (ih (k :: seen) x).mp h1 with ⟨h2, h3⟩
          exact ⟨List.mem_cons_of_mem k h2, fun hx => h3 (List.mem_cons_of_mem k hx)⟩
      · rintro ⟨h1, h2⟩
        rcases List.mem_cons.mp h1 with rfl | h1
        · exact List.mem_cons_self _ _
        · by_cases hxk : x = k
          · subst hxk; exact List.mem_cons_self _ _
          · refine List.mem_cons_of_mem k ((ih (k :: seen) x).mpr ⟨h1, fun hx => ?_⟩)
            rcases List.mem_cons.mp hx with h | h
            · exact hxk h
            · exact h2 h

theorem firstSeenAux_nodup {α : Type} [DecidableEq α] :
    ∀ (l seen : List α), (firstSeenAux l seen).Nodup := by
  intro l
  induction l with
  | nil => intro seen; simp [firstSeenAux]
  | cons k rest ih =>
    intro seen
    rw [firstSeenAux]
    by_cases hk : k ∈ seen
    · rw [if_pos hk]; exact ih seen
    · rw [if_neg hk]
      refine List.nodup_cons.mpr ⟨fun hmem => ?_, ih (k :: seen)⟩
      exact ((firstSeenAux_mem rest (k :: seen) k).mp hmem).2 (List.mem_cons_self _ _)

theorem firstSeen_mem {α : Type} [DecidableEq α] (l : List α) (x : α) :
    x ∈ firstSeen l ↔ x ∈ l := by
  rw [firstSeen, firstSeenAux_mem]
  simp

theorem firstSeen_nodup {α : Type} [DecidableEq α] (l : List α) : (firstSeen l).Nodup :=
  firstSeenAux_nodup l []

theorem sorted_find?_min (l : List Leg) (p : Leg → Bool) (b : Leg)
    (hs : l.Pairwise (fun a b => a.price ≤ b.price))
    (hf : l.find? p = some b) : ∀ x ∈ l, p x → b.price ≤ x.price := by
  induction l with
  | nil => simp at hf
  | cons a t ih =>
    rw [List.find?_cons] at hf
    intro x hx hpx
    split at hf
    · cases hf
      rcases List.mem_cons.mp hx with h1 | h1
      · rw [h1]
      · exact (List.pairwise_cons.mp hs).1 x h1
    · next hpa =>
      rcases List.mem_cons.mp hx with h1 | h1
      · subst h1; rw [hpx] at hpa; simp at hpa
      · exact ih (List.pairwise_cons.mp hs).2 hf x h1 hpx

theorem best_per_group_min (legs : List Leg) :
    ∀ b ∈ best_per_group legs, b ∈ legs ∧
      ∀ l ∈ legs, legKey l = legKey b → b.price ≤ l.price := by
  intro b hb
  rw [best_per_group] at hb
  rcases List.mem_filterMap.mp hb with ⟨k, hk, hfind⟩
  have hperm := List.perm_insertionSort (fun a b : Leg => a.price ≤ b.price) legs
  have hbmem : b ∈ legs := hperm.mem_iff.mp (List.mem_of_find?_eq_some hfind)
  have hbkey : legKey b = k := by simpa using List.find?_some hfind
  refine ⟨hbmem, fun l hl hkey => ?_⟩
  have hsorted : (legs.insertionSort (fun a b : Leg => a.price ≤ b.price)).Pairwise
      (fun a b => a.price ≤ b.price) := List.sorted_insertionSort _ legs
  have hlmem : l ∈ legs.insertionSort (fun a b : Leg => a.price ≤ b.price) :=
    hperm.mem_iff.mpr hl
  exact sorted_find?_min _ _ b hsorted hfind l hlmem (by simp [hkey, hbkey])

theorem best_per_group_exists (legs : List Leg) (k : String × Nat)
    (h : ∃ l ∈ legs, legKey l = k) : ∃ b ∈ best_per_group legs, legKey b = k := by
  rcases h with ⟨l, hl, hk⟩
  have hperm := List.perm_insertionSort (fun a b : Leg => a.price ≤ b.price) legs
  have hl' : l ∈ legs.insertionSort (fun a b : Leg => a.price ≤ b.price) :=
    hperm.mem_iff.mpr hl
  have hkF : k ∈ firstSeen ((legs.insertionSort (fun a b : Leg => a.price ≤ b.price)).map legKey) :=
    (firstSeen_mem _ _).mpr (List.mem_map.mpr ⟨l, hl', hk⟩)
  have hsome : ((legs.insertionSort (fun a b : Leg => a.price ≤ b.price)).find?
      (fun x => legKey x == k)).isSome :=
    List.find?_isSome.mpr ⟨l, hl', by simp [hk]⟩
  cases hfind : (legs.insertionSort (fun a b : Leg => a.price ≤ b.price)).find?
      (fun x => legKey x == k) with
  | none => rw [hfind] at hsome; simp at hsome
  | some b =>
    refine ⟨b, ?_, by simpa using List.find?_some hfind⟩
    rw [best_per_group]
    exact List.mem_filterMap.mpr ⟨k, hkF, hfind⟩

theorem countP_key_filterMap (sorted : List Leg) :
    ∀ F : List (String × Nat), F.Nodup →
      (∀ k ∈ F, (sorted.find? (fun l => legKey l == k)).isSome) →
      ∀ k, (F.filterMap (fun k => sorted.find? (fun l => legKey l == k))).countP
        (fun b => legKey b == k) = if k ∈ F then 1 else 0 := by
  intro F
  induction F with
  | nil => intro _ _ k; simp
  | cons k0 rest ih =>
    intro hnd hsome k
    cases hfind : sorted.find? (fun l => legKey l == k0) with
    | none =>
      exfalso
      have hs := hsome k0 (List.mem_cons_self _ _)
      rw [hfind] at hs
      simp at hs
    | some b0 =>
      have hb0 : legKey b0 = k0 := by simpa using List.find?_some hfind
      have htail := ih (List.nodup_cons.mp hnd).2
        (fun x hx => hsome x (List.mem_cons_of_mem _ hx)) k
      rw [List.filterMap_cons, hfind]
      rw [List.countP_cons, htail]
      by_cases hkk : k = k0
      · subst hkk
        have hkrest : k ∉ rest := (List.nodup_cons.mp hnd).1
        simp [hkrest, hb0]
      · have hb0k : (legKey b0 == k) = false := by
          rw [hb0]
          exact beq_eq_false_iff_ne.mpr (Ne.symm hkk)
        by_cases hkr : k ∈ rest
        · simp [hkr, hkk, hb0k]
        · simp [hkr, hkk, hb0k]

theorem best_per_group_countP (legs : List Leg) (k : String × Nat) :
    (best_per_group legs).countP (fun b => legKey b == k) =
      if k ∈ legs.map legKey then 1 else 0 := by
  have hperm := List.perm_insertionSort (fun a b : Leg => a.price ≤ b.price) legs
  have hsome : ∀ k' ∈ firstSeen ((legs.insertionSort
      (fun a b : Leg => a.price ≤ b.price)).map legKey),
      ((legs.insertionSort (fun a b : Leg => a.price ≤ b.price)).find?
        (fun l => legKey l == k')).isSome := by
    intro k' hk'
    rcases List.mem_map.mp ((firstSeen_mem _ _).mp hk') with ⟨l, hl, hlk⟩
    exact List.find?_isSome.mpr ⟨l, hl, by simp [hlk]⟩
  have hiff : k ∈ firstSeen ((legs.insertionSort
      (fun a b : Leg => a.price ≤ b.price)).map legKey) ↔ k ∈ legs.map legKey :=
    (firstSeen_mem _ _).trans (hperm.map legKey).mem_iff
  rw [best_per_group]
  rw [countP_key_filterMap _ _ (firstSeen_nodup _) hsome k]
  simp only [hiff]

theorem combine_mem_iff (tl : List Nat) (legs : List Leg) (t : Trip) :
    t ∈ _combine_legs_into_trips tl legs ↔
      ∃ o ∈ best_per_group (legs.filter (fun l => l.direction == "outbound")), ∃ L ∈ tl, ∃ r,
        (best_per_group (legs.filter (fun l => l.direction == "return"))).find?
          (fun x => x.destination == o.destination && x.date == o.date + L) = some r ∧
        t = mkTrip o r L := by
  rw [_combine_legs_into_trips]
  by_cases hcond : ((legs.filter (fun l => l.direction == "outbound")).isEmpty ||
      (legs.filter (fun l => l.direction == "return")).isEmpty) = true
  · rw [if_pos hcond]
    simp only [List.not_mem_nil, false_iff]
    rintro ⟨o, ho, L, hL, r, hfind, ht⟩
    have ho' : o ∈ legs.filter (fun l => l.direction == "outbound") :=
      (best_per_group_min _ o ho).1
    have hr' : r ∈ legs.filter (fun l => l.direction == "return") :=
      (best_per_group_min _ r (List.mem_of_find?_eq_some hfind)).1
    rw [Bool.or_eq_true] at hcond
    rcases hcond with hc | hc
    · rw [List.isEmpty_iff] at hc; rw [hc] at ho'; simp at ho'
    · rw [List.isEmpty_iff] at hc; rw [hc] at hr'; simp at hr'
  · rw [if_neg hcond]
    rw [(List.perm_insertionSort (fun a b : Trip => a.total_price ≤ b.total_price) _).mem_iff]
    simp only [List.mem_flatMap, List.mem_filterMap, Option.map_eq_some']
    constructor
    · rintro ⟨o, ho, L, hL, r, hfind, rfl⟩
      exact ⟨o, ho, L, hL, r, hfind, rfl⟩
    · rintro ⟨o, ho, L, hL, r, hfind, rfl⟩
      exact ⟨o, ho, L, hL, r, hfind, rfl⟩

theorem combine_emits_iff (tl : List Nat) (legs : List Leg) :
    ∀ o ∈ best_per_group (legs.filter (fun l => l.direction == "outbound")), ∀ L ∈ tl,
      ((∃ r ∈ best_per_group (legs.filter (fun l => l.direction == "return")),
          r.destination = o.destination ∧ r.date = o.date + L) ↔
        (∃ t ∈ _combine_legs_into_trips tl legs,
          t.destination = o.destination ∧ t.depart_date = o.date ∧ t.trip_days = L)) := by
  intro o ho L hL
  constructor
  · rintro ⟨r, hr, hrd, hrdate⟩
    have hsome : ((best_per_group (legs.filter (fun l => l.direction == "return"))).find?
        (fun x => x.destination == o.destination && x.date == o.date + L)).isSome :=
      List.find?_isSome.mpr ⟨r, hr, by simp [hrd, hrdate]⟩
    cases hfind : (best_per_group (legs.filter (fun l => l.direction == "return"))).find?
        (fun x => x.destination == o.destination && x.date == o.date + L) with
    | none => rw [hfind] at hsome; simp at hsome
    | some r' =>
      exact ⟨mkTrip o r' L, (combine_mem_iff tl legs _).mpr ⟨o, ho, L, hL, r', hfind, rfl⟩,
        rfl, rfl, rfl⟩
  · rintro ⟨t, ht, htd, htdep, htdays⟩
    rcases (combine_mem_iff tl legs t).mp ht with ⟨o', ho', L', hL', r, hfind, rfl⟩
    have hfs := List.find?_some hfind
    simp only [Bool.and_eq_true, beq_iff_eq] at hfs
    refine ⟨r, List.mem_of_find?_eq_some hfind, ?_, ?_⟩
    · rw [hfs.1]; exact htd
    · rw [hfs.2]
      have h2 : o'.date = o.date := htdep
      have h3 : L' = L := htdays
      rw [h2, h3]

theorem combine_trip_fields (tl : List Nat) (legs : List Leg) :
    ∀ t ∈ _combine_legs_into_trips tl legs,
      t.total_price = t.outbound_price + t.return_price ∧
      t.return_date = t.depart_date + t.trip_days := by
  intro t ht
  rcases (combine_mem_iff tl legs t).mp ht with ⟨o, _, L, _, r, _, rfl⟩
  exact ⟨rfl, rfl⟩

theorem combine_sorted (tl : List Nat) (legs : List Leg) :
    (_combine_legs_into_trips tl legs).Pairwise
      (fun a b => a.total_price ≤ b.total_price) := by
  rw [_combine_legs_into_trips]
  split
  · exact List.Pairwise.nil
  · exact List.sorted_insertionSort _ _

/-! ## C1 -/

/-- C1: for each (destination, date) group within a partition, best_per_group
selects a leg of the group of minimal price, exactly one per occurring group
key (first position after the stable sort by price); a round trip for a best
outbound leg and trip length L is emitted exactly when a best return leg
exists at (destination, depart_date + L); every emitted trip is the join of a
best outbound and a best return leg with total_price the sum of the two
prices; the output is sorted by ascending total price; and on the concrete
example store ([300, 250] outbound CUN day 0, [200] return CUN day 4, trip
lengths [3,4,5,6]) the single trip uses the 250 outbound and totals 450. -/
theorem c1_trip_combination :
    (∀ legs : List Leg, ∀ b ∈ best_per_group legs, b ∈ legs ∧
      ∀ l ∈ legs, legKey l = legKey b → b.price ≤ l.price) ∧
    (∀ (legs : List Leg) (k : String × Nat),
      (best_per_group legs).countP (fun b => legKey b == k) =
        if k ∈ legs.map legKey then 1 else 0) ∧
    (∀ (tl : List Nat) (legs : List Leg) (t : Trip),
      t ∈ _combine_legs_into_trips tl legs ↔
        ∃ o ∈ best_per_group (legs.filter (fun l => l.direction == "outbound")), ∃ L ∈ tl,
          ∃ r, (best_per_group (legs.filter (fun l => l.direction == "return"))).find?
            (fun x => x.destination == o.destination && x.date == o.date + L) = some r ∧
            t = mkTrip o r L) ∧
    (∀ (tl : List Nat) (legs : List Leg),
      ∀ o ∈ best_per_group (legs.filter (fun l => l.direction == "outbound")), ∀ L ∈ tl,
        ((∃ r ∈ best_per_group (legs.filter (fun l => l.direction == "return")),
            r.destination = o.destination ∧ r.date = o.date + L) ↔
          (∃ t ∈ _combine_legs_into_trips tl legs,
            t.destination = o.destination ∧ t.depart_date = o.date ∧ t.trip_days = L))) ∧
    (∀ (tl : List Nat) (legs : List Leg), ∀ t ∈ _combine_legs_into_trips tl legs,
      t.total_price = t.outbound_price + t.return_price ∧
      t.return_date = t.depart_date + t.trip_days) ∧
    (∀ (tl : List Nat) (legs : List Leg),
      (_combine_legs_into_trips tl legs).Pairwise
        (fun a b => a.total_price ≤ b.total_price)) ∧
    (_combine_legs_into_trips TRIP_LENGTHS exC1Legs =
        [mkTrip (exOutLeg 250 "Delta" "09:00") (exRetLeg 200 "JetBlue") 4] ∧
      (mkTrip (exOutLeg 250 "Delta" "09:00") (exRetLeg 200 "JetBlue") 4).outbound_price = 250 ∧
      (mkTrip (exOutLeg 250 "Delta" "09:00") (exRetLeg 200 "JetBlue") 4).total_price = 450) :=
  ⟨best_per_group_min, best_per_group_countP, combine_mem_iff, combine_emits_iff,
    combine_trip_fields, combine_sorted, by decide, by decide, by decide⟩

/-- C1 witness: the cheapest-selection conjunct and the emission conjunct
applied on the concrete example store: the 250-dollar Delta leg is the best
outbound of its group, and the presence of the best return leg at day 4 emits
the round trip. -/
theorem c1_trip_combination_witness :
    ((exOutLeg 250 "Delta" "09:00") ∈ exC1Legs.filter (fun l => l.direction == "outbound") ∧
      ∀ l ∈ exC1Legs.filter (fun l => l.direction == "outbound"),
        legKey l = legKey (exOutLeg 250 "Delta" "09:00") →
          (exOutLeg 250 "Delta" "09:00").price ≤ l.price) ∧
    (∃ t ∈ _combine_legs_into_trips TRIP_LENGTHS exC1Legs,
      t.destination = (exOutLeg 250 "Delta" "09:00").destination ∧
      t.depart_date = (exOutLeg 250 "Delta" "09:00").date ∧ t.trip_days = 4) := by
  constructor
  · exact c1_trip_combination.1 (exC1Legs.filter (fun l => l.direction == "outbound"))
      (exOutLeg 250 "Delta" "09:00") (by decide)
  · exact (c1_trip_combination.2.2.2.1 TRIP_LENGTHS exC1Legs
      (exOutLeg 250 "Delta" "09:00") (by decide) 4 (by decide)).mp
      ⟨exRetLeg 200 "JetBlue", by decide, by decide, by decide⟩

/-! ## C2 -/

theorem mem_nonbudget_dir (legs : List Leg) (dir : String) (l : Leg) :
    l ∈ (legs.filter (fun x => !(matches_budget x.airline))).filter
        (fun x => x.direction == dir) ↔
      l ∈ legs ∧ matches_budget l.airline = false ∧ l.direction = dir := by
  simp only [List.mem_filter, Bool.not_eq_true', beq_iff_eq, and_assoc]


/-- C2: the "No Budget Airlines" sheet data of build_excel_report is exactly
the combination re-run on the raw legs with every budget-airline leg
(Frontier or Spirit, case-insensitive) removed first — not a filter of the
already-combined trips; consequently whenever a non-budget outbound and a
non-budget return exist for a (destination, date, trip length), the excluded
view contains that trip and its outbound is the cheapest non-budget outbound
of the group; on the concrete example the all-airlines view uses the Spirit
200 outbound while the excluded view substitutes the Delta 260 outbound
instead of dropping the trip. -/
theorem c2_budget_exclusion :
    (∀ (tl : List Nat) (trips : List Trip) (legs : List Leg),
      build_excel_report tl trips legs =
        (trips, _combine_legs_into_trips tl
          (legs.filter (fun l => !(matches_budget l.airline))))) ∧
    (∀ (tl : List Nat) (trips : List Trip) (legs : List Leg) (dest : String) (d L : Nat),
      L ∈ tl →
      (∃ o ∈ legs, o.direction = "outbound" ∧ matches_budget o.airline = false ∧
        o.destination = dest ∧ o.date = d) →
      (∃ r ∈ legs, r.direction = "return" ∧ matches_budget r.airline = false ∧
        r.destination = dest ∧ r.date = d + L) →
      ∃ t ∈ (build_excel_report tl trips legs).2,
        t.destination = dest ∧ t.depart_date = d ∧ t.trip_days = L ∧
        ∃ o, o ∈ legs ∧ o.direction = "outbound" ∧ matches_budget o.airline = false ∧
          o.destination = dest ∧ o.date = d ∧ t.outbound_price = o.price ∧
          ∀ l ∈ legs, l.direction = "outbound" → matches_budget l.airline = false →
            l.destination = dest → l.date = d → o.price ≤ l.price) ∧
    (_combine_legs_into_trips TRIP_LENGTHS exC2Legs =
        [mkTrip (exOutLeg 200 "Spirit Airlines" "07:00") (exRetLeg 210 "JetBlue") 4] ∧
      (build_excel_report TRIP_LENGTHS (_combine_legs_into_trips TRIP_LENGTHS exC2Legs)
          exC2Legs).2 =
        [mkTrip (exOutLeg 260 "Delta" "09:00") (exRetLeg 210 "JetBlue") 4]) := by
  refine ⟨fun tl trips legs => rfl, ?_, by decide, by decide⟩
  intro tl trips legs dest d L hL ho hr
  rcases ho with ⟨o, hom, hod, hob, hodest, hodate⟩
  rcases hr with ⟨r, hrm, hrd, hrb, hrdest, hrdate⟩
  have honb : o ∈ (legs.filter (fun x => !(matches_budget x.airline))).filter
      (fun x => x.direction == "outbound") :=
    (mem_nonbudget_dir legs "outbound" o).mpr ⟨hom, hob, hod⟩
  have hrnb : r ∈ (legs.filter (fun x => !(matches_budget x.airline))).filter
      (fun x => x.direction == "return") :=
    (mem_nonbudget_dir legs "return" r).mpr ⟨hrm, hrb, hrd⟩
  have hokey : legKey o = (dest, d) := by
    rw [legKey, hodest, hodate]
  have hrkey : legKey r = (dest, d + L) := by
    rw [legKey, hrdest, hrdate]
  rcases best_per_group_exists _ (dest, d) ⟨o, honb, hokey⟩ with ⟨b, hb, hbkey⟩
  rcases best_per_group_exists _ (dest, d + L) ⟨r, hrnb, hrkey⟩ with ⟨rb, hrbm, hrbkey⟩
  have hbdest : b.destination = dest := congrArg Prod.fst hbkey
  have hbdate : b.date = d := congrArg Prod.snd hbkey
  have hrbdest : rb.destination = dest := congrArg Prod.fst hrbkey
  have hrbdate : rb.date = d + L := congrArg Prod.snd hrbkey
  rcases (combine_emits_iff tl (legs.filter (fun x => !(matches_budget x.airline)))
      b hb L hL).mp ⟨rb, hrbm, by rw [hrbdest, hbdest], by rw [hrbdate, hbdate]⟩ with
    ⟨t, ht, htd, htdep, htdays⟩
  refine ⟨t, ht, by rw [htd, hbdest], by rw [htdep, hbdate], htdays, ?_⟩
  rcases (combine_mem_iff tl (legs.filter (fun x => !(matches_budget x.airline))) t).mp ht
    with ⟨o', ho', L', hL', r', hfind, rfl⟩
  have ho'min := best_per_group_min _ o' ho'
  have ho'dest : o'.destination = dest := by
    have : (mkTrip o' r' L').destination = dest := by rw [htd, hbdest]
    exact this
  have ho'date : o'.date = d := by
    have : (mkTrip o' r' L').depart_date = d := by rw [htdep, hbdate]
    exact this
  rcases (mem_nonbudget_dir legs "outbound" o').mp ho'min.1 with ⟨ho'm, ho'b, ho'd⟩
  refine ⟨o', ho'm, ho'd, ho'b, ho'dest, ho'date, rfl, ?_⟩
  intro l hlm hld hlb hldest hldate
  have hlnb : l ∈ (legs.filter (fun x => !(matches_budget x.airline))).filter
      (fun x => x.direction == "outbound") :=
    (mem_nonbudget_dir legs "outbound" l).mpr ⟨hlm, hlb, hld⟩
  apply ho'min.2 l hlnb
  rw [legKey, legKey, hldest, hldate, ho'dest, ho'date]

/-- C2 witness: the substitution conjunct applied on the concrete example
store — the no-budget sheet contains a CUN day-0 four-day trip whose outbound
is the cheapest non-budget outbound. -/
theorem c2_budget_exclusion_witness :
    ∃ t ∈ (build_excel_report TRIP_LENGTHS
        (_combine_legs_into_trips TRIP_LENGTHS exC2Legs) exC2Legs).2,
      t.destination = "CUN" ∧ t.depart_date = 0 ∧ t.trip_days = 4 ∧
      ∃ o, o ∈ exC2Legs ∧ o.direction = "outbound" ∧ matches_budget o.airline = false ∧
        o.destination = "CUN" ∧ o.date = 0 ∧ t.outbound_price = o.price ∧
        ∀ l ∈ exC2Legs, l.direction = "outbound" → matches_budget l.airline = false →
          l.destination = "CUN" → l.date = 0 → o.price ≤ l.price :=
  c2_budget_exclusion.2.1 TRIP_LENGTHS (_combine_legs_into_trips TRIP_LENGTHS exC2Legs)
    exC2Legs "CUN" 0 4 (by decide)
    ⟨exOutLeg 260 "Delta" "09:00", by decide, by decide, by decide, by decide, by decide⟩
    ⟨exRetLeg 210 "JetBlue", by decide, by decide, by decide, by decide, by decide⟩

/-! ## Task-planning lemmas -/

theorem mem_ite_nil_singleton {α : Type} (c : Prop) [Decidable c] (x t : α) :
    (t ∈ if c then ([] : List α) else [x]) ↔ (¬c ∧ t = x) := by
  split
  · next h => simp [h]
  · next h => simp [h]

theorem ite_none_some_eq_some {α : Type} (c : Prop) [Decidable c] (x t : α) :
    ((if c then none else some x) = some t) ↔ (¬c ∧ x = t) := by
  split
  · next h => simp [h]
  · next h => simp [h]

theorem mem_generate_dates (start endD d : Nat) :
    d ∈ generate_dates start endD ↔ (start ≤ d ∧ d ≤ endD) := by
  rw [generate_dates, List.mem_range'_1]
  omega

theorem generate_dates_getLastD (start endD : Nat) (h : start ≤ endD) :
    (generate_dates start endD).getLastD 0 = endD := by
  rw [generate_dates]
  have hn : endD + 1 - start = (endD - start) + 1 := by omega
  rw [hn, List.range'_concat, List.getLastD_concat]
  omega

theorem plan_tasks_eq (origin : String) (destinations : List (String × String))
    (start endD : Nat) (tripLengths : List Nat) (completed : List TaskKey) :
    plan_tasks origin destinations start endD tripLengths completed =
      (destinations.flatMap (fun dc =>
        (generate_dates start endD).flatMap (fun d =>
          (if ("outbound", dc.1, d) ∈ completed then [] else [outboundTask origin dc d]) ++
          (if ("return", dc.1, d) ∈ completed then [] else [returnTask origin dc d])))) ++
      ((List.range' ((generate_dates start endD).getLastD 0 + 1)
          (tripLengths.foldr max 0)).flatMap
        (fun d => destinations.filterMap (fun dc =>
          if ("return", dc.1, d) ∈ completed then none
          else some (returnTask origin dc d)))) := rfl

theorem plan_tasks_mem (origin : String) (destinations : List (String × String))
    (start endD : Nat) (tripLengths : List Nat) (completed : List TaskKey)
    (t : SearchTask) :
    t ∈ plan_tasks origin destinations start endD tripLengths completed ↔
      ∃ dc ∈ destinations,
        ((∃ d ∈ generate_dates start endD,
            (("outbound", dc.1, d) ∉ completed ∧ t = outboundTask origin dc d) ∨
            (("return", dc.1, d) ∉ completed ∧ t = returnTask origin dc d)) ∨
         (∃ d ∈ List.range' ((generate_dates start endD).getLastD 0 + 1)
             (tripLengths.foldr max 0),
            ("return", dc.1, d) ∉ completed ∧ t = returnTask origin dc d)) := by
  rw [plan_tasks_eq]
  simp only [List.mem_append, List.mem_flatMap, List.mem_filterMap,
    mem_ite_nil_singleton, ite_none_some_eq_some]
  constructor
  · rintro (⟨dc, hdc, d, hd, h⟩ | ⟨d, hd, dc, hdc, hc, heq⟩)
    · exact ⟨dc, hdc, Or.inl ⟨d, hd, h⟩⟩
    · exact ⟨dc, hdc, Or.inr ⟨d, hd, hc, heq.symm⟩⟩
  · rintro ⟨dc, hdc, ⟨d, hd, h⟩ | ⟨d, hd, hc, heq⟩⟩
    · exact Or.inl ⟨dc, hdc, d, hd, h⟩
    · exact Or.inr ⟨d, hd, dc, hdc, hc, heq.symm⟩

theorem baseKeys_eq (origin : String) (destinations : List (String × String))
    (dates : List Nat) (completed : List TaskKey) :
    ((destinations.flatMap (fun dc =>
        dates.flatMap (fun d =>
          (if ("outbound", dc.1, d) ∈ completed then [] else [outboundTask origin dc d]) ++
          (if ("return", dc.1, d) ∈ completed then [] else [returnTask origin dc d])))).map
        (fun t => t.key)) =
      destinations.flatMap (fun dc =>
        dates.flatMap (fun d =>
          (if ("outbound", dc.1, d) ∈ completed then []
            else [(("outbound", dc.1, d) : TaskKey)]) ++
          (if ("return", dc.1, d) ∈ completed then []
            else [(("return", dc.1, d) : TaskKey)]))) := by
  rw [List.map_flatMap]
  congr 1
  funext dc
  rw [List.map_flatMap]
  congr 1
  funext d
  rw [List.map_append]
  congr 1
  · split
    · rfl
    · simp [outboundTask]
  · split
    · rfl
    · simp [returnTask]

theorem extraKeys_eq (origin : String) (destinations : List (String × String))
    (dates' : List Nat) (completed : List TaskKey) :
    ((dates'.flatMap (fun d => destinations.filterMap (fun dc =>
        if ("return", dc.1, d) ∈ completed then none
        else some (returnTask origin dc d)))).map (fun t => t.key)) =
      dates'.flatMap (fun d => destinations.filterMap (fun dc =>
        if ("return", dc.1, d) ∈ completed then none
        else some (("return", dc.1, d) : TaskKey))) := by
  rw [List.map_flatMap]
  congr 1
  funext d
  rw [List.map_filterMap]
  congr 1
  funext dc
  split
  · rfl
  · simp [returnTask]

theorem mem_key_pair (c1 c2 : Prop) [Decidable c1] [Decidable c2] (k1 k2 k : TaskKey)
    (h : k ∈ (if c1 then [] else [k1]) ++ (if c2 then [] else [k2])) :
    k = k1 ∨ k = k2 := by
  rcases List.mem_append.mp h with h1 | h1
  · exact Or.inl ((mem_ite_nil_singleton _ _ _).mp h1).2
  · exact Or.inr ((mem_ite_nil_singleton _ _ _).mp h1).2

theorem nodup_baseKeys (destinations : List (String × String)) (dates : List Nat)
    (completed : List TaskKey) (hnd : (destinations.map Prod.fst).Nodup)
    (hdates : dates.Nodup) :
    (destinations.flatMap (fun dc =>
      dates.flatMap (fun d =>
        (if ("outbound", dc.1, d) ∈ completed then []
          else [(("outbound", dc.1, d) : TaskKey)]) ++
        (if ("return", dc.1, d) ∈ completed then []
          else [(("return", dc.1, d) : TaskKey)])))).Nodup := by
  rw [List.nodup_flatMap]
  constructor
  · intro dc _
    rw [List.nodup_flatMap]
    constructor
    · intro d _
      split <;> split <;> simp
    · have hp : dates.Pairwise (fun a b => a ≠ b) := hdates
      refine hp.imp ?_
      intro a b hab
      refine List.disjoint_left.mpr ?_
      intro k hka hkb
      rcases mem_key_pair _ _ _ _ k hka with rfl | rfl <;>
        rcases mem_key_pair _ _ _ _ _ hkb with h2 | h2 <;> simp_all
  · have hp : destinations.Pairwise (fun a b => a.1 ≠ b.1) := List.pairwise_map.mp hnd
    refine hp.imp ?_
    intro a b hab
    refine List.disjoint_left.mpr ?_
    intro k hka hkb
    rcases List.mem_flatMap.mp hka with ⟨d1, _, hk1⟩
    rcases List.mem_flatMap.mp hkb with ⟨d2, _, hk2⟩
    rcases mem_key_pair _ _ _ _ k hk1 with rfl | rfl <;>
      rcases mem_key_pair _ _ _ _ _ hk2 with h2 | h2 <;> simp_all

theorem mem_extra_inner_key (completed : List TaskKey) (d : Nat)
    (destinations : List (String × String)) (k : TaskKey)
    (h : k ∈ destinations.filterMap (fun dc =>
        if ("return", dc.1, d) ∈ completed then none
        else some (("return", dc.1, d) : TaskKey))) :
    ∃ dc ∈ destinations, k = ("return", dc.1, d) := by
  rcases List.mem_filterMap.mp h with ⟨dc, hdc, hk⟩
  rw [ite_none_some_eq_some] at hk
  exact ⟨dc, hdc, hk.2.symm⟩

theorem nodup_extra_inner (completed : List TaskKey) (d : Nat) :
    ∀ destinations : List (String × String), (destinations.map Prod.fst).Nodup →
      (destinations.filterMap (fun dc =>
        if ("return", dc.1, d) ∈ completed then none
        else some (("return", dc.1, d) : TaskKey))).Nodup := by
  intro dest
  induction dest with
  | nil => intro _; simp
  | cons dc rest ih =>
    intro hnd
    rw [List.map_cons, List.nodup_cons] at hnd
    rw [List.filterMap_cons]
    split
    · exact ih hnd.2
    · next b hb =>
      rw [ite_none_some_eq_some] at hb
      cases hb.2
      rw [List.nodup_cons]
      refine ⟨fun hmem => ?_, ih hnd.2⟩
      rcases mem_extra_inner_key completed d rest _ hmem with ⟨dc', hdc', hk⟩
      have heq : dc.1 = dc'.1 := by
        simpa using hk
      exact hnd.1 (by rw [heq]; exact List.mem_map_of_mem _ hdc')

theorem nodup_extraKeys (destinations : List (String × String)) (dates' : List Nat)
    (completed : List TaskKey) (hnd : (destinations.map Prod.fst).Nodup)
    (hdates : dates'.Nodup) :
    (dates'.flatMap (fun d => destinations.filterMap (fun dc =>
      if ("return", dc.1, d) ∈ completed then none
      else some (("return", dc.1, d) : TaskKey)))).Nodup := by
  rw [List.nodup_flatMap]
  refine ⟨fun d _ => nodup_extra_inner completed d destinations hnd, ?_⟩
  have hp : dates'.Pairwise (fun a b => a ≠ b) := hdates
  refine hp.imp ?_
  intro a b hab
  refine List.disjoint_left.mpr ?_
  intro k hka hkb
  rcases mem_extra_inner_key completed a destinations k hka with ⟨dc1, _, rfl⟩
  rcases mem_extra_inner_key completed b destinations _ hkb with ⟨dc2, _, hk2⟩
  simp_all

theorem mem_baseKeys_date (destinations : List (String × String)) (dates : List Nat)
    (completed : List TaskKey) (k : TaskKey)
    (h : k ∈ destinations.flatMap (fun dc =>
      dates.flatMap (fun d =>
        (if ("outbound", dc.1, d) ∈ completed then []
          else [(("outbound", dc.1, d) : TaskKey)]) ++
        (if ("return", dc.1, d) ∈ completed then []
          else [(("return", dc.1, d) : TaskKey)])))) :
    k.2.2 ∈ dates := by
  rcases List.mem_flatMap.mp h with ⟨dc, _, h2⟩
  rcases List.mem_flatMap.mp h2 with ⟨d, hd, h3⟩
  rcases mem_key_pair _ _ _ _ k h3 with rfl | rfl <;> exact hd

theorem mem_extraKeys_date (destinations : List (String × String)) (dates' : List Nat)
    (completed : List TaskKey) (k : TaskKey)
    (h : k ∈ dates'.flatMap (fun d => destinations.filterMap (fun dc =>
      if ("return", dc.1, d) ∈ completed then none
      else some (("return", dc.1, d) : TaskKey)))) :
    k.2.2 ∈ dates' := by
  rcases List.mem_flatMap.mp h with ⟨d, hd, h2⟩
  rcases mem_extra_inner_key completed d destinations k h2 with ⟨dc, _, rfl⟩
  exact hd

/-! ## C3 -/

/-- C3: with a valid date range and distinct destination codes, the task list
built by main contains a task with key (dir, dc, d) exactly when that key is
not in the loaded completed set, dc is a configured destination code, and
either dir is "outbound" with d in the inclusive start..end range, or dir is
"return" with d in start..end + max(trip lengths) (the direction-range window
plus the trailing return window); the emitted keys are pairwise distinct (one
task per key); outbound tasks run origin to destination and return tasks
destination to origin; and a key present in the completed set is never
resubmitted. -/
theorem c3_task_planning :
    ∀ (origin : String) (destinations : List (String × String)) (start endD : Nat)
      (tripLengths : List Nat) (completed : List TaskKey),
      start ≤ endD → (destinations.map Prod.fst).Nodup →
      ((∀ dir dc d, ((dir, dc, d) ∈
          (plan_tasks origin destinations start endD tripLengths completed).map
            (fun t => t.key)) ↔
        ((dir, dc, d) ∉ completed ∧ (∃ cn, (dc, cn) ∈ destinations) ∧
          ((dir = "outbound" ∧ start ≤ d ∧ d ≤ endD) ∨
           (dir = "return" ∧ start ≤ d ∧ d ≤ endD + tripLengths.foldr max 0)))) ∧
      ((plan_tasks origin destinations start endD tripLengths completed).map
          (fun t => t.key)).Nodup ∧
      (∀ t ∈ plan_tasks origin destinations start endD tripLengths completed,
        t.dest_code = t.key.2.1 ∧ t.date = t.key.2.2 ∧
        (t.key.1 = "outbound" → t.origin = origin ∧ t.dest = t.dest_code) ∧
        (t.key.1 = "return" → t.origin = t.dest_code ∧ t.dest = origin)) ∧
      (∀ k ∈ completed, k ∉
        (plan_tasks origin destinations start endD tripLengths completed).map
          (fun t => t.key))) := by
  intro origin destinations start endD tripLengths completed hse hnd
  have hlast := generate_dates_getLastD start endD hse
  have hchar : ∀ dir dc d, ((dir, dc, d) ∈
      (plan_tasks origin destinations start endD tripLengths completed).map
        (fun t => t.key)) ↔
      ((dir, dc, d) ∉ completed ∧ (∃ cn, (dc, cn) ∈ destinations) ∧
        ((dir = "outbound" ∧ start ≤ d ∧ d ≤ endD) ∨
         (dir = "return" ∧ start ≤ d ∧ d ≤ endD + tripLengths.foldr max 0))) := by
    intro dir dc d
    rw [List.mem_map]
    constructor
    · rintro ⟨t, ht, hkey⟩
      rcases (plan_tasks_mem origin destinations start endD tripLengths completed t).mp ht
        with ⟨dcp, hdcp, hcase⟩
      rcases hcase with ⟨d', hd', ⟨hc, rfl⟩ | ⟨hc, rfl⟩⟩ | ⟨d', hd', hc, rfl⟩
      · simp only [outboundTask] at hkey
        rw [Prod.mk.injEq, Prod.mk.injEq] at hkey
        obtain ⟨h1, h2, h3⟩ := hkey
        subst h1; subst h2; subst h3
        have hb := (mem_generate_dates start endD d').mp hd'
        exact ⟨hc, ⟨dcp.2, by rw [Prod.mk.eta]; exact hdcp⟩, Or.inl ⟨rfl, hb.1, hb.2⟩⟩
      · simp only [returnTask] at hkey
        rw [Prod.mk.injEq, Prod.mk.injEq] at hkey
        obtain ⟨h1, h2, h3⟩ := hkey
        subst h1; subst h2; subst h3
        have hb := (mem_generate_dates start endD d').mp hd'
        exact ⟨hc, ⟨dcp.2, by rw [Prod.mk.eta]; exact hdcp⟩,
          Or.inr ⟨rfl, hb.1, hb.2.trans (Nat.le_add_right endD _)⟩⟩
      · simp only [returnTask] at hkey
        rw [Prod.mk.injEq, Prod.mk.injEq] at hkey
        obtain ⟨h1, h2, h3⟩ := hkey
        subst h1; subst h2; subst h3
        rw [hlast, List.mem_range'_1] at hd'
        exact ⟨hc, ⟨dcp.2, by rw [Prod.mk.eta]; exact hdcp⟩,
          Or.inr ⟨rfl, by omega, by omega⟩⟩
    · rintro ⟨hc, ⟨cn, hcn⟩, ⟨rfl, hd1, hd2⟩ | ⟨rfl, hd1, hd2⟩⟩
      · refine ⟨outboundTask origin (dc, cn) d, ?_, rfl⟩
        exact (plan_tasks_mem origin destinations start endD tripLengths completed _).mpr
          ⟨(dc, cn), hcn, Or.inl ⟨d, (mem_generate_dates start endD d).mpr ⟨hd1, hd2⟩,
            Or.inl ⟨hc, rfl⟩⟩⟩
      · by_cases hdle : d ≤ endD
        · refine ⟨returnTask origin (dc, cn) d, ?_, rfl⟩
          exact (plan_tasks_mem origin destinations start endD tripLengths completed _).mpr
            ⟨(dc, cn), hcn, Or.inl ⟨d, (mem_generate_dates start endD d).mpr ⟨hd1, hdle⟩,
              Or.inr ⟨hc, rfl⟩⟩⟩
        · refine ⟨returnTask origin (dc, cn) d, ?_, rfl⟩
          refine (plan_tasks_mem origin destinations start endD tripLengths completed _).mpr
            ⟨(dc, cn), hcn, Or.inr ⟨d, ?_, hc, rfl⟩⟩
          rw [hlast, List.mem_range'_1]
          omega
  refine ⟨hchar, ?_, ?_, ?_⟩
  · rw [plan_tasks_eq, List.map_append, baseKeys_eq, extraKeys_eq]
    rw [List.nodup_append]
    refine ⟨nodup_baseKeys destinations _ completed hnd
        (by rw [generate_dates]; exact List.nodup_range' ..),
      nodup_extraKeys destinations _ completed hnd (List.nodup_range' ..), ?_⟩
    intro k hk1 hk2
    have h1 := mem_baseKeys_date destinations _ completed k hk1
    have h2 := mem_extraKeys_date destinations _ completed k hk2
    rw [mem_generate_dates] at h1
    rw [hlast, List.mem_range'_1] at h2
    omega
  · intro t ht
    rcases (plan_tasks_mem origin destinations start endD tripLengths completed t).mp ht
      with ⟨dcp, _, hcase⟩
    rcases hcase with ⟨d', _, ⟨_, rfl⟩ | ⟨_, rfl⟩⟩ | ⟨d', _, _, rfl⟩
    · exact ⟨rfl, rfl, fun _ => ⟨rfl, rfl⟩, fun h => by simp [outboundTask] at h⟩
    · exact ⟨rfl, rfl, fun h => by simp [returnTask] at h, fun _ => ⟨rfl, rfl⟩⟩
    · exact ⟨rfl, rfl, fun h => by simp [returnTask] at h, fun _ => ⟨rfl, rfl⟩⟩
  · intro k hk hmem
    obtain ⟨dir, dc2, d2⟩ := k
    exact ((hchar dir dc2 d2).mp hmem).1 hk

/-- C3 witness: on a concrete plan (one destination, range day 10..11, trip
lengths [3,4,5,6], key ("outbound","CUN",10) already completed), the
completed key is not resubmitted while the trailing-window return task at day
17 = 11 + 6 is present. -/
theorem c3_task_planning_witness :
    (("outbound", "CUN", 10) : TaskKey) ∉
      (plan_tasks "BOS" [("CUN", "Cancun")] 10 11 TRIP_LENGTHS
        [("outbound", "CUN", 10)]).map (fun t => t.key) ∧
    (("return", "CUN", 17) : TaskKey) ∈
      (plan_tasks "BOS" [("CUN", "Cancun")] 10 11 TRIP_LENGTHS
        [("outbound", "CUN", 10)]).map (fun t => t.key) := by
  have h := c3_task_planning "BOS" [("CUN", "Cancun")] 10 11 TRIP_LENGTHS
    [("outbound", "CUN", 10)] (by decide) (by decide)
  constructor
  · exact h.2.2.2 ("outbound", "CUN", 10) (by decide)
  · exact (h.1 "return" "CUN" 17).mpr
      ⟨by decide, ⟨"Cancun", by decide⟩, Or.inr ⟨rfl, by decide, by decide⟩⟩

end FlightAgent
